import Mathlib

/-!
# Verification of the Stimulus signal/slot core (src/include/stimulus.h)

Shallow embedding of the connection lifecycle and emission engine of the
Stimulus library, single-threaded sequential execution, synchronous
execution policy (`synchronous_policy::execute` runs the unit of work
inline).  Every definition mirrors a function of `stimulus.h`; the line
numbers in comments refer to that file.

Modelling conventions:
* a `connection_holder_implementation` object is identified by its
  allocation index (a `Nat`): holder ids model object addresses;
* the copy-on-write slot list discipline (`connect_impl`, `disconnect`:
  build a new `slot_list`, then publish it under lock, never mutating the
  old one) is modelled by the pair `published` / `history`: publishing a
  new list pushes the previously published list onto `history`, where it
  is retained verbatim — exactly as an in-flight emission's
  `SharedPointer<slot_list>` snapshot keeps the old list alive and
  unchanged;
* slot closures are modelled by a small action language `Act`: a slot body
  is a list of actions, each either re-entering `emit` on the same signal
  (`reemit`) or throwing (`fail`); an empty body is a plain slot;
* exceptions are modelled by `Nat` codes threaded as an `Option Nat`
  alongside the state (`none` = returned normally, `some e` = exception
  `e` propagating out);
* observable behaviour is recorded in a `trace`: one `Event.invoke` per
  slot call (the call of `m_slot` inside `safe_execute`), tagged with how
  the emitted arguments were passed (`Mode.byRef` for the `(**it)(args...)`
  loop over all but the last snapshot element, `Mode.forwarded` for the
  `std::forward` call on the last), and one `Event.handled` per exception
  handler invocation.
-/

namespace Stimulus

/-- How `emit` passes the emitted arguments to a subscriber
(stimulus.h:1442-1447): all but the last snapshot element receive them as
lvalues (by reference, no copy), the last receives them forwarded/moved. -/
inductive Mode where
  | byRef
  | forwarded
  deriving DecidableEq, Repr

/-- Observable events of a run. -/
inductive Event (α : Type) where
  | invoke (holder : Nat) (args : α) (mode : Mode)
  | handled (holder : Nat) (handler : Nat) (exc : Nat)
  deriving DecidableEq, Repr

/-- One action of a slot body: re-enter `emit` on the same signal with the
given arguments, or throw exception `e`. -/
inductive Act (α : Type) where
  | reemit (args : α)
  | fail (e : Nat)
  deriving DecidableEq, Repr

/-- One `connection_holder_implementation` (stimulus.h:1825-1965):
slot closure (`m_slot`, here an action list), exception handler list
(`m_exception_handlers`, here handler ids), suspended flag
(`m_suspended`), single-shot flag (`m_single_shot`), optional non-owning
guard pointer (`m_guard`), and whether the object is still alive (a
strong reference remains; `connection`'s weak pointer locks iff so). -/
structure HolderRec (α : Type) where
  body : List (Act α)
  handlers : List Nat
  suspended : Bool
  singleShot : Bool
  guard : Option Nat
  alive : Bool
  deriving DecidableEq, Repr

/-- Global state: one signal (`m_slots` = `published`), the retained
previously-published slot lists (`history`, see module comment), the
holder heap, the guards' `m_emitting_sources` lists, and the event
trace. -/
structure State (α : Type) where
  published : List Nat
  history : List (List Nat)
  holders : List (HolderRec α)
  guards : List (List Nat)
  trace : List (Event α)
  deriving DecidableEq, Repr

variable {α : Type}

/-- Publish a freshly built slot list (the `std::swap(slots, m_slots)` at
stimulus.h:1466 and stimulus.h:2063); the old published list is retained
unmodified. -/
def publish (st : State α) (l : List Nat) : State α :=
  { st with history := st.history ++ [st.published], published := l }

/-- Models `signal::disconnect(holder)` (stimulus.h:1460-1467): build a new list
from the current one erasing every element equal to `holder`
(`std::erase_if` compares stored pointers with the holder address), then
publish it. -/
def signalDisconnect (st : State α) (hid : Nat) : State α :=
  publish st (st.published.filter (fun s => s ≠ hid))

/-- Models `guard::clean(holder)` (stimulus.h:1136-1140): erase the scoped
connection for `holder` from the guard's `m_emitting_sources`. -/
def guardClean (st : State α) (g : Nat) (hid : Nat) : State α :=
  { st with guards := st.guards.set g ((st.guards.getD g []).filter (fun c => c ≠ hid)) }

/-- Models `connection_holder_implementation::disconnect` (stimulus.h:1913-1922):
remove this holder from its signal, then, if a guard is attached, detach
it (`std::swap` with `nullptr`) and clean this holder out of it. -/
def holderDisconnect (st : State α) (hid : Nat) : State α :=
  let st1 := signalDisconnect st hid
  match st1.holders[hid]? with
  | none => st1
  | some r =>
    match r.guard with
    | none => st1
    | some g =>
      guardClean { st1 with holders := st1.holders.set hid { r with guard := none } } g hid

/-- Models `suspend` (stimulus.h:1924-1927): store `true` into `m_suspended`. -/
def holderSuspend (st : State α) (hid : Nat) : State α :=
  match st.holders[hid]? with
  | none => st
  | some r => { st with holders := st.holders.set hid { r with suspended := true } }

/-- Models `resume` (stimulus.h:1929-1932): store `false` into `m_suspended`. -/
def holderResume (st : State α) (hid : Nat) : State α :=
  match st.holders[hid]? with
  | none => st
  | some r => { st with holders := st.holders.set hid { r with suspended := false } }

/-- Models `add_exception_handler` (stimulus.h:1934-1938): append to
`m_exception_handlers`. -/
def holderAddHandler (st : State α) (hid : Nat) (k : Nat) : State α :=
  match st.holders[hid]? with
  | none => st
  | some r => { st with holders := st.holders.set hid { r with handlers := r.handlers ++ [k] } }

/-- Models `weak_ptr::lock` on a `connection`'s stored weak holder reference:
succeeds iff the holder object still exists. -/
def lockHolder (st : State α) (hid : Nat) : Option (HolderRec α) :=
  match st.holders[hid]? with
  | none => none
  | some r => if r.alive then some r else none

/-- Models `connection::disconnect` (stimulus.h:973-982): lock the weak holder,
silently return if it is gone, otherwise forward. -/
def connDisconnect (st : State α) (hid : Nat) : State α :=
  match lockHolder st hid with
  | none => st
  | some _ => holderDisconnect st hid

/-- Models `connection::suspend` (stimulus.h:984-993). -/
def connSuspend (st : State α) (hid : Nat) : State α :=
  match lockHolder st hid with
  | none => st
  | some _ => holderSuspend st hid

/-- Models `connection::resume` (stimulus.h:995-1004). -/
def connResume (st : State α) (hid : Nat) : State α :=
  match lockHolder st hid with
  | none => st
  | some _ => holderResume st hid

/-- Models `connection::add_exception_handler` (stimulus.h:1006-1015). -/
def connAddHandler (st : State α) (hid : Nat) (k : Nat) : State α :=
  match lockHolder st hid with
  | none => st
  | some _ => holderAddHandler st hid k

/-- Models `signal::connect_impl` (stimulus.h:2051-2068): allocate a fresh
holder (no guard pointer — the guarded `connect` overloads also route
through `connect_impl` and register with the guard afterwards, see
`connect_with_guard` stimulus.h:2092-2108), build a new slot list with it
appended, publish, and hand back the new holder's id (the `connection`
wraps a weak reference to it). -/
def connectImpl (st : State α) (body : List (Act α)) (once : Bool) : State α × Nat :=
  let hid := st.holders.length
  let r : HolderRec α :=
    { body := body, handlers := [], suspended := false, singleShot := once,
      guard := none, alive := true }
  let st1 := publish st (st.published ++ [hid])
  ({ st1 with holders := st1.holders ++ [r] }, hid)

/-- Models `guard::add_emitting_source` (stimulus.h:1142-1146): append the new
scoped connection to the guard's list. -/
def addEmittingSource (st : State α) (g : Nat) (hid : Nat) : State α :=
  { st with guards := st.guards.set g ((st.guards.getD g []) ++ [hid]) }

/-- Models `signal::connect_with_guard` (stimulus.h:2092-2108): `connect_impl`,
then register the connection with the guard. -/
def connectWithGuard (st : State α) (body : List (Act α)) (once : Bool) (g : Nat) :
    State α × Nat :=
  let p := connectImpl st body once
  (addEmittingSource p.1 g p.2, p.2)

/-- The holder object is destroyed: no strong reference (no published or
snapshot slot list) retains it any more, so the `connection`'s weak
pointer can no longer be locked. -/
def destroyHolder (st : State α) (hid : Nat) : State α :=
  match st.holders[hid]? with
  | none => st
  | some r => { st with holders := st.holders.set hid { r with alive := false } }

/-- Signal destruction: `m_slots` is released, destroying every holder it
owns (sequential setting: no emission snapshot keeps them alive). -/
def destroySignal (st : State α) : State α :=
  let killed := st.published.foldl
    (fun hs hid =>
      match hs[hid]? with
      | none => hs
      | some r => hs.set hid { r with alive := false })
    st.holders
  { publish st [] with holders := killed }

/-- Models `~guard` (stimulus.h:1111, `m_emitting_sources` destruction): each
owned `scoped_connection` destructor runs `connection::disconnect`
(stimulus.h:1053-1061); afterwards the list itself is gone. -/
def destroyGuard (st : State α) (g : Nat) : State α :=
  let st1 := (st.guards.getD g []).foldl (fun s c => connDisconnect s c) st
  { st1 with guards := st1.guards.set g [] }

/-- Models `inhibitor::inhibitor` (stimulus.h:1077-1081): suspend on
construction. -/
def inhibitorCreate (st : State α) (hid : Nat) : State α :=
  connSuspend st hid

/-- Models `~inhibitor` (stimulus.h:1089-1092): resume on destruction. -/
def inhibitorDestroy (st : State α) (hid : Nat) : State α :=
  connResume st hid

/-- Run a slot body (the calls the slot closure makes), given the
interpretation `emitF` of a nested `emit` on the signal.  An exception
aborts the rest of the body and propagates. -/
def runBody (emitF : State α → α → State α × Option Nat) :
    State α → List (Act α) → State α × Option Nat
  | st, [] => (st, none)
  | st, Act.fail e :: _ => (st, some e)
  | st, Act.reemit a :: rest =>
    match emitF st a with
    | (st1, some e) => (st1, some e)
    | (st1, none) => runBody emitF st1 rest

/-- Models `safe_execute` and the slot call inside it (stimulus.h:1889-1911)
together with the handler copy taken in `operator()` (stimulus.h:1873):
read the current handler list, record the slot invocation, run the body;
on an exception deliver the same captured exception to every handler (and
swallow it) if there is at least one, otherwise rethrow. -/
def invokeBody (emitF : State α → α → State α × Option Nat) (st : State α)
    (hid : Nat) (args : α) (mode : Mode) : State α × Option Nat :=
  match st.holders[hid]? with
  | none => (st, none)
  | some r =>
    let hs := r.handlers
    let st1 := { st with trace := st.trace ++ [Event.invoke hid args mode] }
    match runBody emitF st1 r.body with
    | (st2, none) => (st2, none)
    | (st2, some e) =>
      if hs.isEmpty then (st2, some e)
      else ({ st2 with trace := st2.trace ++ hs.map (fun k => Event.handled hid k e) }, none)

/-- Models `connection_holder_implementation::operator()` (stimulus.h:1860-1887),
synchronous policy: skip if suspended; if single-shot, disconnect first;
then execute the slot under `safe_execute`. -/
def invokeHolder (emitF : State α → α → State α × Option Nat) (st : State α)
    (hid : Nat) (args : α) (mode : Mode) : State α × Option Nat :=
  match st.holders[hid]? with
  | none => (st, none)
  | some r =>
    if r.suspended then (st, none)
    else invokeBody emitF (if r.singleShot then holderDisconnect st hid else st) hid args mode

/-- The iteration pattern of `emit` (stimulus.h:1439-1447) applied to a
snapshot: every element except the last is paired with `Mode.byRef`
(the `(**it)(emitted_args...)` loop), the last with `Mode.forwarded`
(the `std::forward` call on `slots->back()`). -/
def snapModes : List Nat → List (Nat × Mode)
  | [] => []
  | [h] => [(h, Mode.forwarded)]
  | h :: rest => (h, Mode.byRef) :: snapModes rest

/-- Walk the snapshot, invoking each holder in turn; an uncaught exception
from a slot aborts the remaining subscribers of this `emit` call. -/
def emitSteps (emitF : State α → α → State α × Option Nat) :
    State α → α → List (Nat × Mode) → State α × Option Nat
  | st, _, [] => (st, none)
  | st, args, p :: rest =>
    match invokeHolder emitF st p.1 args p.2 with
    | (st1, some e) => (st1, some e)
    | (st1, none) => emitSteps emitF st1 args rest

/-- Models `signal::emit` (stimulus.h:1428-1448) with recursion fuel for
re-entrant emission: take a snapshot reference of the current list
(`copy_slots`), return immediately if it is empty, otherwise invoke the
subscribers in registration order, all but the last by reference and the
last forwarded.  `fuel` bounds the re-entrance depth; at fuel `0` a
nested `emit` is not entered (the theorems below only use states whose
re-entrance depth is below the fuel). -/
def emitWith : Nat → State α → α → State α × Option Nat
  | 0, st, _ => (st, none)
  | fuel + 1, st, args =>
    let snap := st.published
    if snap.isEmpty then (st, none)
    else emitSteps (fun s a => emitWith fuel s a) st args (snapModes snap)

/-- The empty initial state: fresh signal, no holders, `g` guards. -/
def initState (g : Nat) : State α :=
  { published := [], history := [], holders := [], guards := List.replicate g [],
    trace := [] }

/-- The holder object still exists (a strong reference remains). -/
def aliveAt (st : State α) (hid : Nat) : Bool :=
  match st.holders[hid]? with
  | some r => r.alive
  | none => false

/-- The holder's `m_suspended` flag. -/
def suspendedAt (st : State α) (hid : Nat) : Bool :=
  match st.holders[hid]? with
  | some r => r.suspended
  | none => false

/-- The holder's `m_single_shot` flag. -/
def singleShotAt (st : State α) (hid : Nat) : Bool :=
  match st.holders[hid]? with
  | some r => r.singleShot
  | none => false

/-- A plain subscriber: its slot neither re-enters `emit` nor throws, and
it is not single-shot. -/
def plainAt (st : State α) (hid : Nat) : Bool :=
  match st.holders[hid]? with
  | some r => r.body.isEmpty && !r.singleShot
  | none => false

/-- Number of invocations of holder `hid`'s slot recorded in a trace. -/
def countInvokes (tr : List (Event α)) (hid : Nat) : Nat :=
  tr.countP (fun e =>
    match e with
    | Event.invoke x _ _ => x == hid
    | Event.handled _ _ _ => false)

/-- The externally observable part of the state: the published subscriber
list, the holder records, the guard lists and the event trace (the
`history` of retained previously-published lists is allocation
bookkeeping, not observable behaviour). -/
def observable (st : State α) : List Nat × List (HolderRec α) × List (List Nat) × List (Event α) :=
  (st.published, st.holders, st.guards, st.trace)

/-- Specification-side description of one emission round over the snapshot
`l`: one slot call per subscriber, in registration order; all but the last
receive the arguments by reference, the last receives them forwarded. -/
def emitCallsSpec (l : List Nat) (args : α) : List (Event α) :=
  match l.getLast? with
  | none => []
  | some x =>
    (l.dropLast.map (fun h => Event.invoke h args Mode.byRef)) ++
      [Event.invoke x args Mode.forwarded]

/-- The slot body performs no re-entrant emission (it may still throw). -/
def noReemitB : List (Act α) → Bool :=
  fun body => body.all (fun a =>
    match a with
    | Act.reemit _ => false
    | Act.fail _ => true)

/-- No slot body registered in the state performs a re-entrant emission. -/
def statePure (st : State α) : Bool :=
  st.holders.all (fun r => noReemitB r.body)

/-- A sequence of top-level `emit` calls, one per element of `argsL`. -/
def emitSeq (fuel : Nat) (st : State α) (argsL : List α) : State α :=
  argsL.foldl (fun s a => (emitWith fuel s a).1) st

/-- The re-entrant single-shot scenario: subscriber `0` is a `connect_once`
slot that re-emits on the same signal, subscriber `1` is a plain
`connect_once` slot. -/
def c2Scenario : State Nat :=
  (connectImpl (connectImpl (initState 0) [Act.reemit 0] true).1 [] true).1

/-- Two plain subscribers on one signal. -/
def twoPlain : State Nat :=
  (connectImpl (connectImpl (initState 0) [] false).1 [] false).1

/-- A plain subscriber followed by a subscriber whose slot throws `9`,
with no exception handler registered. -/
def plainThenThrower : State Nat :=
  (connectImpl (connectImpl (initState 0) [] false).1 [Act.fail 9] false).1

/-- One subscriber registered through guard `0`. -/
def oneGuarded : State Nat :=
  (connectWithGuard (initState 1) [] false 0).1

/-- One single-shot subscriber. -/
def oneOnce : State Nat :=
  (connectImpl (initState 0) [] true).1

/-- A heterogeneous emitted value: the claims' examples use `int` and
`string` arguments. -/
inductive Val where
  | int (n : Int)
  | str (s : String)
  deriving DecidableEq, Repr

/-- Models `details::partial_call` (stimulus.h:242-256) at value level: a callable
of arity `k` invoked on `args` — if the callable accepts the argument
count, call it with all of them, otherwise drop the trailing argument and
retry.  The result is the argument list actually passed. -/
def partialCallList {β : Type} (k : Nat) (args : List β) : List β :=
  if args.length ≤ k then args else partialCallList k args.dropLast
termination_by args.length
decreasing_by
  rename_i h
  rw [List.length_dropLast]
  omega

/-- The closure built by `details::mapped_source::forwarding_lambda`
(stimulus.h:1611-1623): on emitted arguments `args` it makes exactly one
downstream call, passing the arguments selected by `Indexes` (pack
indexing `args...[Indexes]...`), fed through `partial_call` for a
downstream callable of arity `k`.  The result is the list of downstream
calls (each the argument list it receives). -/
def mappedLambda (idxs : List Nat) (k : Nat) (args : List Val) : List (List Val) :=
  [partialCallList k (idxs.map (fun i => args.getD i (Val.int 0)))]

/-- The closure built by `details::filtered_source::forwarding_lambda`
(stimulus.h:1780-1791): evaluate the predicate (of arity `pk`) through
`partial_call` on the emitted arguments; if it is false make no downstream
call, otherwise forward the arguments through `partial_call` to the
downstream callable of arity `k`. -/
def filteredLambda (pred : List Val → Bool) (pk k : Nat) (args : List Val) :
    List (List Val) :=
  if pred (partialCallList pk args) then [partialCallList k args] else []

/-- The `is_even` predicate of the claim's example, on an int signal. -/
def isEvenVal : List Val → Bool
  | [Val.int n] => n % 2 == 0
  | _ => false

-- ### Basic helper lemmas

lemma getq_some_lt {β : Type} {l : List β} {i : Nat} {a : β} (h : l[i]? = some a) :
    i < l.length := by
  by_contra hc
  rw [List.getElem?_eq_none (Nat.le_of_not_lt hc)] at h
  exact Option.noConfusion h

lemma filter_ne_idem (l : List Nat) (hid : Nat) :
    (l.filter (fun s => s ≠ hid)).filter (fun s => s ≠ hid) = l.filter (fun s => s ≠ hid) := by
  rw [List.filter_filter]
  simp

lemma lockHolder_eq_none {st : State α} {hid : Nat} (h : aliveAt st hid = false) :
    lockHolder st hid = none := by
  unfold aliveAt at h
  unfold lockHolder
  cases hr : st.holders[hid]? with
  | none => rfl
  | some r => rw [hr] at h; simp at h; simp [h]

lemma lockHolder_eq_some {st : State α} {hid : Nat} {r : HolderRec α}
    (hr : st.holders[hid]? = some r) (ha : r.alive = true) :
    lockHolder st hid = some r := by
  unfold lockHolder
  rw [hr]
  simp [ha]

lemma aliveAt_some {st : State α} {hid : Nat} (halive : aliveAt st hid = true) :
    ∃ r, st.holders[hid]? = some r ∧ r.alive = true := by
  unfold aliveAt at halive
  cases hr : st.holders[hid]? with
  | none => rw [hr] at halive; exact Bool.noConfusion halive
  | some r => rw [hr] at halive; exact ⟨r, rfl, by simpa using halive⟩

lemma guard_none_update {r : HolderRec α} (h : r.guard = none) :
    ({ r with guard := none } : HolderRec α) = r := by
  cases r
  simp_all

-- ### Field-wise description of holderDisconnect

lemma holderDisconnect_published (st : State α) (hid : Nat) :
    (holderDisconnect st hid).published = st.published.filter (fun s => s ≠ hid) := by
  unfold holderDisconnect
  dsimp only
  split
  · simp [signalDisconnect, publish]
  · split <;> simp [guardClean, signalDisconnect, publish]

lemma holderDisconnect_history (st : State α) (hid : Nat) :
    (holderDisconnect st hid).history = st.history ++ [st.published] := by
  unfold holderDisconnect
  dsimp only
  split
  · simp [signalDisconnect, publish]
  · split <;> simp [guardClean, signalDisconnect, publish]

lemma holderDisconnect_trace (st : State α) (hid : Nat) :
    (holderDisconnect st hid).trace = st.trace := by
  unfold holderDisconnect
  dsimp only
  split
  · simp [signalDisconnect, publish]
  · split <;> simp [guardClean, signalDisconnect, publish]

lemma holderDisconnect_holders_getq (st : State α) (hid x : Nat) :
    (holderDisconnect st hid).holders[x]? =
      if x = hid then (st.holders[x]?).map (fun r => { r with guard := none })
      else st.holders[x]? := by
  unfold holderDisconnect
  dsimp only
  have hsd : (signalDisconnect st hid).holders = st.holders := by
    simp [signalDisconnect, publish]
  rw [hsd]
  cases hr : st.holders[hid]? with
  | none =>
    dsimp only
    by_cases hx : x = hid
    · subst hx; simp [hsd, hr]
    · simp [hsd, hx]
  | some r =>
    dsimp only
    cases hg : r.guard with
    | none =>
      dsimp only
      by_cases hx : x = hid
      · subst hx; simp [hsd, hr, guard_none_update hg]
      · simp [hsd, hx]
    | some g =>
      simp only [guardClean, hsd]
      by_cases hx : x = hid
      · subst hx; simp [hr, List.getElem?_set_self (getq_some_lt hr)]
      · simp [hx, List.getElem?_set_ne (fun h => hx h.symm)]

lemma holderDisconnect_guards_of_guard_none (st : State α) (hid : Nat)
    (h : ∀ r, st.holders[hid]? = some r → r.guard = none) :
    (holderDisconnect st hid).guards = st.guards := by
  unfold holderDisconnect
  dsimp only
  have hsd : (signalDisconnect st hid).holders = st.holders := by
    simp [signalDisconnect, publish]
  rw [hsd]
  cases hr : st.holders[hid]? with
  | none => simp [signalDisconnect, publish]
  | some r =>
    dsimp only
    cases hg : r.guard with
    | none => simp [signalDisconnect, publish]
    | some g => exact absurd (h r hr) (by simp [hg])

lemma holderDisconnect_alive (st : State α) (hid x : Nat) :
    aliveAt (holderDisconnect st hid) x = aliveAt st x := by
  unfold aliveAt
  rw [holderDisconnect_holders_getq]
  by_cases hx : x = hid
  · subst hx
    simp only [if_pos rfl]
    cases st.holders[x]? <;> rfl
  · simp [hx]

lemma aliveAt_connSuspend (st : State α) (hid x : Nat) :
    aliveAt (connSuspend st hid) x = aliveAt st x := by
  unfold connSuspend
  cases hl : lockHolder st hid with
  | none => rfl
  | some r =>
    unfold holderSuspend
    cases hr : st.holders[hid]? with
    | none => rfl
    | some r2 =>
      unfold aliveAt
      dsimp only
      by_cases hx : x = hid
      · subst hx; simp [List.getElem?_set_self (getq_some_lt hr), hr]
      · simp [List.getElem?_set_ne (fun h => hx h.symm)]

lemma suspendedAt_connResume (st : State α) (hid : Nat) (halive : aliveAt st hid = true) :
    suspendedAt (connResume st hid) hid = false := by
  obtain ⟨r, hr, ha⟩ := aliveAt_some halive
  simp [connResume, lockHolder_eq_some hr ha, holderResume, hr, suspendedAt,
    List.getElem?_set_self (getq_some_lt hr)]

/-- C4: `disconnect` is idempotent: a second `disconnect` on the same
connection leaves the observable state (published list, holders, guards,
trace) exactly as after the first.  It removes the subscription from all
future emissions (`hid` is absent from the newly published list) and never
mutates a slot list in place: it builds a new list excluding the holder
and publishes it, the previously published list being retained unchanged
(appended verbatim to `history`, where an in-flight emission snapshot still
references it).  On an already-destroyed holder it is a silent no-op. -/
theorem c4_disconnect_idempotent_cow (st : State α) (hid : Nat) :
    (aliveAt st hid = true →
      (connDisconnect st hid).history = st.history ++ [st.published] ∧
      (connDisconnect st hid).published = st.published.filter (fun s => s ≠ hid) ∧
      hid ∉ (connDisconnect st hid).published) ∧
    (aliveAt st hid = false → connDisconnect st hid = st) ∧
    observable (connDisconnect (connDisconnect st hid) hid) =
      observable (connDisconnect st hid) := by
  refine ⟨?_, ?_, ?_⟩
  · intro halive
    obtain ⟨r, hr, ha⟩ := aliveAt_some halive
    have hcd : connDisconnect st hid = holderDisconnect st hid := by
      simp [connDisconnect, lockHolder_eq_some hr ha]
    rw [hcd]
    refine ⟨holderDisconnect_history st hid, holderDisconnect_published st hid, ?_⟩
    rw [holderDisconnect_published]
    simp [List.mem_filter]
  · intro hdead
    simp [connDisconnect, lockHolder_eq_none hdead]
  · cases halive : aliveAt st hid with
    | false => simp [connDisconnect, lockHolder_eq_none halive]
    | true =>
      obtain ⟨r, hr, ha⟩ := aliveAt_some halive
      have hcd : connDisconnect st hid = holderDisconnect st hid := by
        simp [connDisconnect, lockHolder_eq_some hr ha]
      set st1 := holderDisconnect st hid with hst1
      have halive1 : aliveAt st1 hid = true := by
        rw [hst1, holderDisconnect_alive]; exact halive
      obtain ⟨r1, hr1, ha1⟩ := aliveAt_some halive1
      have hg1 : r1.guard = none := by
        have := holderDisconnect_holders_getq st hid hid
        rw [← hst1, hr1] at this
        simp [hr] at this
        rw [this]
      have hcd1 : connDisconnect st1 hid = holderDisconnect st1 hid := by
        simp [connDisconnect, lockHolder_eq_some hr1 ha1]
      rw [hcd, hcd1]
      unfold observable
      refine congrArg₂ Prod.mk ?_ (congrArg₂ Prod.mk ?_ (congrArg₂ Prod.mk ?_ ?_))
      · rw [holderDisconnect_published, hst1, holderDisconnect_published, filter_ne_idem]
      · apply List.ext_getElem?
        intro n
        rw [holderDisconnect_holders_getq]
        by_cases hn : n = hid
        · subst hn
          rw [if_pos rfl, hr1]
          simp [guard_none_update hg1]
        · rw [if_neg hn]
      · exact holderDisconnect_guards_of_guard_none st1 hid
          (fun r2 hr2 => by rw [hr1] at hr2; cases hr2; exact hg1)
      · exact holderDisconnect_trace st1 hid

/-- C7: Every operation on a connection whose underlying holder has
been destroyed (`disconnect`, `suspend`, `resume`, `add_exception_handler`)
is a silent no-op: the weak reference fails to lock and the state is left
untouched.  `connect` itself never fails: it always registers a fresh,
alive holder and the returned handle refers to a member of the newly
published subscriber list. -/
theorem c7_dangling_noop (st : State α) (hid k : Nat) (body : List (Act α)) (once : Bool)
    (hdead : aliveAt st hid = false) :
    connDisconnect st hid = st ∧ connSuspend st hid = st ∧ connResume st hid = st ∧
    connAddHandler st hid k = st ∧
    aliveAt (connectImpl st body once).1 (connectImpl st body once).2 = true ∧
    (connectImpl st body once).2 ∈ (connectImpl st body once).1.published := by
  have hl := lockHolder_eq_none hdead
  refine ⟨?_, ?_, ?_, ?_, ?_, ?_⟩
  · simp [connDisconnect, hl]
  · simp [connSuspend, hl]
  · simp [connResume, hl]
  · simp [connAddHandler, hl]
  · simp [connectImpl, publish, aliveAt, List.getElem?_concat_length]
  · simp [connectImpl, publish]

/-- C10: Suspension is a single boolean flag, not a counter:
`suspend` is idempotent, one `resume` unconditionally clears the
suspended state no matter how many `suspend`s preceded it, and with two
nested inhibitors on the same connection, destroying the inner one
already resumes delivery (the holder is no longer suspended) although the
outer inhibitor is still in scope. -/
theorem c10_suspend_boolean (st : State α) (hid : Nat) (halive : aliveAt st hid = true) :
    connSuspend (connSuspend st hid) hid = connSuspend st hid ∧
    suspendedAt (connResume st hid) hid = false ∧
    suspendedAt
      (inhibitorDestroy (inhibitorCreate (inhibitorCreate st hid) hid) hid) hid = false := by
  obtain ⟨r, hr, ha⟩ := aliveAt_some halive
  have hlt := getq_some_lt hr
  have h1 : connSuspend st hid =
      { st with holders := st.holders.set hid { r with suspended := true } } := by
    simp [connSuspend, lockHolder_eq_some hr ha, holderSuspend, hr]
  have hidem : connSuspend (connSuspend st hid) hid = connSuspend st hid := by
    rw [h1]
    simp [connSuspend, lockHolder, holderSuspend, List.getElem?_set_self, List.length_set,
      hlt, ha, List.set_set]
  refine ⟨hidem, suspendedAt_connResume st hid halive, ?_⟩
  unfold inhibitorCreate inhibitorDestroy
  rw [hidem]
  apply suspendedAt_connResume
  rw [aliveAt_connSuspend]
  exact halive

-- ### Emission over plain subscribers

lemma plainAt_some {st : State α} {hid : Nat} (h : plainAt st hid = true) :
    ∃ r, st.holders[hid]? = some r ∧ r.body = [] ∧ r.singleShot = false := by
  unfold plainAt at h
  cases hr : st.holders[hid]? with
  | none => rw [hr] at h; exact Bool.noConfusion h
  | some r =>
    rw [hr] at h
    simp at h
    exact ⟨r, rfl, h.1, h.2⟩

lemma set_self_of_getq {β : Type} {l : List β} {i : Nat} {a : β} (h : l[i]? = some a) :
    l.set i a = l := by
  apply List.ext_getElem?
  intro n
  by_cases hn : n = i
  · subst hn
    rw [List.getElem?_set_self (getq_some_lt h)]
    exact h.symm
  · rw [List.getElem?_set_ne (fun hh => hn hh.symm)]

lemma snapModes_cons_cons (a b : Nat) (t : List Nat) :
    snapModes (a :: b :: t) = (a, Mode.byRef) :: snapModes (b :: t) := rfl

lemma snapModes_fst : ∀ (l : List Nat), (snapModes l).map Prod.fst = l
  | [] => rfl
  | [_] => rfl
  | a :: b :: t => by
    rw [snapModes_cons_cons, List.map_cons, snapModes_fst (b :: t)]

lemma snapModes_cons (t : Nat) (post : List Nat) :
    snapModes (t :: post) =
      (t, if post.isEmpty then Mode.forwarded else Mode.byRef) :: snapModes post := by
  cases post with
  | nil => rfl
  | cons b tl => rw [snapModes_cons_cons]; rfl

lemma snapModes_append (l1 l2 : List Nat) (h : l2 ≠ []) :
    snapModes (l1 ++ l2) = l1.map (fun x => (x, Mode.byRef)) ++ snapModes l2 := by
  induction l1 with
  | nil => rfl
  | cons a t ih =>
    cases hc : t ++ l2 with
    | nil => exact absurd (List.append_eq_nil.mp hc).2 h
    | cons y ys =>
      rw [List.cons_append, hc, snapModes_cons_cons, ← hc, ih]
      rfl

lemma snapModes_map_eq_spec (args : α) :
    ∀ (l : List Nat),
      (snapModes l).map (fun p => Event.invoke p.1 args p.2) = emitCallsSpec l args
  | [] => rfl
  | [_] => rfl
  | a :: b :: t => by
    rw [snapModes_cons_cons, List.map_cons, snapModes_map_eq_spec args (b :: t)]
    unfold emitCallsSpec
    rw [List.getLast?_cons_cons]
    cases hl : (b :: t).getLast? with
    | none => simp at hl
    | some x => simp

lemma invokeHolder_plain (emitF : State α → α → State α × Option Nat) (st : State α)
    (hid : Nat) (args : α) (m : Mode) (r : HolderRec α)
    (hr : st.holders[hid]? = some r) (hbody : r.body = []) (hss : r.singleShot = false) :
    invokeHolder emitF st hid args m =
      ({ st with trace := st.trace ++ if r.suspended then [] else [Event.invoke hid args m] },
       none) := by
  unfold invokeHolder
  rw [hr]
  dsimp only
  cases hsus : r.suspended with
  | true => simp
  | false =>
    rw [if_neg (by simp), hss, if_neg (by simp)]
    unfold invokeBody
    rw [hr]
    dsimp only
    rw [hbody]
    simp [runBody]

@[simp]
lemma suspendedAt_trace_update (st : State α) (t : List (Event α)) (x : Nat) :
    suspendedAt { st with trace := t } x = suspendedAt st x := rfl

@[simp]
lemma plainAt_trace_update (st : State α) (t : List (Event α)) (x : Nat) :
    plainAt { st with trace := t } x = plainAt st x := rfl

lemma emitSteps_plain (emitF : State α → α → State α × Option Nat) (st : State α)
    (args : α) (ms : List (Nat × Mode)) (hplain : ∀ p ∈ ms, plainAt st p.1 = true) :
    emitSteps emitF st args ms =
      ({ st with trace := st.trace ++
          ((ms.filter (fun p => !suspendedAt st p.1)).map
            (fun p => Event.invoke p.1 args p.2)) }, none) := by
  induction ms generalizing st with
  | nil => simp [emitSteps]
  | cons p rest ih =>
    obtain ⟨r, hr, hbody, hss⟩ := plainAt_some (hplain p (List.mem_cons_self p rest))
    have hsusp : suspendedAt st p.1 = r.suspended := by
      unfold suspendedAt; rw [hr]
    rw [emitSteps, invokeHolder_plain emitF st p.1 args p.2 r hr hbody hss]
    dsimp only
    have ih2 := ih { st with trace := st.trace ++ (if r.suspended then [] else [Event.invoke p.1 args p.2]) } (fun q hq => hplain q (List.mem_cons_of_mem p hq))
    rw [ih2]
    have hfc : (p :: rest).filter (fun q => !suspendedAt st q.1) =
        (if r.suspended then [] else [p]) ++ rest.filter (fun q => !suspendedAt st q.1) := by
      rw [List.filter_cons]
      cases hs2 : r.suspended <;> simp [hsusp, hs2]
    rw [hfc]
    cases hs2 : r.suspended <;> simp [List.append_assoc]

lemma emitSteps_plain_live (emitF : State α → α → State α × Option Nat) (st : State α)
    (args : α) (ms : List (Nat × Mode))
    (h : ∀ p ∈ ms, plainAt st p.1 = true ∧ suspendedAt st p.1 = false) :
    emitSteps emitF st args ms =
      ({ st with trace := st.trace ++ ms.map (fun p => Event.invoke p.1 args p.2) }, none) := by
  rw [emitSteps_plain emitF st args ms (fun p hp => (h p hp).1)]
  rw [List.filter_eq_self.mpr (fun p hp => by simp [(h p hp).2])]

lemma mem_snapModes_fst {l : List Nat} {p : Nat × Mode} (hp : p ∈ snapModes l) : p.1 ∈ l := by
  rw [← snapModes_fst l]
  exact List.mem_map_of_mem Prod.fst hp

/-- C1: With every subscriber in the snapshot a plain (non-single-shot,
non-re-entrant, non-throwing), live, non-suspended slot, one `emit` call
invokes each subscriber's slot exactly once, in registration order: the
trace is extended by precisely one `invoke` event per subscriber, all but
the last with the arguments passed by reference and the last with them
forwarded; no exception escapes and nothing else in the state changes.
If the subscriber list is empty this specializes to `emit` returning
immediately with the state untouched (`emitCallsSpec [] args = []`). -/
theorem c1_emit_order (st : State α) (args : α) (f : Nat)
    (hplain : ∀ p ∈ st.published, plainAt st p = true)
    (hlive : ∀ p ∈ st.published, suspendedAt st p = false) :
    emitWith (f + 1) st args =
      ({ st with trace := st.trace ++ emitCallsSpec st.published args }, none) := by
  rw [emitWith]
  cases hp : st.published.isEmpty with
  | true =>
    rw [if_pos rfl]
    have hp2 : st.published = [] := List.isEmpty_iff.mp hp
    rcases st with ⟨pub, hist, hold, gs, tr⟩
    simp only at hp2
    subst hp2
    simp [emitCallsSpec]
  | false =>
    rw [if_neg (by simp)]
    rw [emitSteps_plain_live _ st args (snapModes st.published)
      (fun p hp => ⟨hplain p.1 (mem_snapModes_fst hp), hlive p.1 (mem_snapModes_fst hp)⟩)]
    rw [snapModes_map_eq_spec]

lemma connSuspend_published (st : State α) (hid : Nat) :
    (connSuspend st hid).published = st.published := by
  unfold connSuspend
  cases lockHolder st hid with
  | none => rfl
  | some r =>
    unfold holderSuspend
    cases st.holders[hid]? <;> rfl

lemma plainAt_connSuspend (st : State α) (hid x : Nat) :
    plainAt (connSuspend st hid) x = plainAt st x := by
  unfold connSuspend
  cases hl : lockHolder st hid with
  | none => rfl
  | some r =>
    unfold holderSuspend
    cases hr : st.holders[hid]? with
    | none => rfl
    | some r2 =>
      unfold plainAt
      dsimp only
      by_cases hx : x = hid
      · subst hx; simp [List.getElem?_set_self (getq_some_lt hr), hr]
      · simp [List.getElem?_set_ne (fun h => hx h.symm)]

lemma suspendedAt_connSuspend_self {st : State α} {hid : Nat}
    (halive : aliveAt st hid = true) :
    suspendedAt (connSuspend st hid) hid = true := by
  obtain ⟨r, hr, ha⟩ := aliveAt_some halive
  simp [connSuspend, lockHolder_eq_some hr ha, holderSuspend, hr, suspendedAt,
    List.getElem?_set_self (getq_some_lt hr)]

lemma suspended_false_update {r : HolderRec α} (h : r.suspended = false) :
    ({ r with suspended := false } : HolderRec α) = r := by
  cases r
  simp_all

/-- C6: After `suspend`, the subscription remains a member of the
signal's published subscriber list, but its slot is not invoked by
emissions while it is suspended (no `invoke` event for it is added to the
trace); a subsequent `resume` restores exactly the pre-suspend state, so
delivery behaviour is precisely what it was before the suspend. -/
theorem c6_suspend_skip_resume_restore (st : State α) (hid : Nat)
    (halive : aliveAt st hid = true) :
    (connSuspend st hid).published = st.published ∧
    (∀ (args : α) (f : Nat), (∀ p ∈ st.published, plainAt st p = true) →
      countInvokes (emitWith (f + 1) (connSuspend st hid) args).1.trace hid =
        countInvokes (connSuspend st hid).trace hid) ∧
    (suspendedAt st hid = false → connResume (connSuspend st hid) hid = st) := by
  refine ⟨connSuspend_published st hid, ?_, ?_⟩
  · intro args f hplain
    set st1 := connSuspend st hid with hst1
    have hsus1 : suspendedAt st1 hid = true := suspendedAt_connSuspend_self halive
    rw [emitWith]
    cases hp : st1.published.isEmpty with
    | true => rw [if_pos rfl]
    | false =>
      rw [if_neg (by simp)]
      have hplain1 : ∀ p ∈ snapModes st1.published, plainAt st1 p.1 = true := by
        intro p hp2
        rw [hst1, plainAt_connSuspend]
        apply hplain
        have := mem_snapModes_fst hp2
        rw [hst1, connSuspend_published] at this
        exact this
      rw [emitSteps_plain _ st1 args _ hplain1]
      dsimp only
      unfold countInvokes
      rw [List.countP_append]
      have hz : (((snapModes st1.published).filter (fun p => !suspendedAt st1 p.1)).map
          (fun p => Event.invoke p.1 args p.2)).countP (fun e =>
            match e with
            | Event.invoke x _ _ => x == hid
            | Event.handled _ _ _ => false) = 0 := by
        rw [List.countP_eq_zero]
        intro e he
        obtain ⟨q, hq, rfl⟩ := List.mem_map.mp he
        have hql := (List.mem_filter.mp hq).2
        simp only [Bool.not_eq_true'] at hql
        simp only [beq_iff_eq]
        intro hcon
        rw [hcon] at hql
        rw [hsus1] at hql
        exact Bool.noConfusion hql
      rw [hz]
      simp
  · intro hns
    obtain ⟨r, hr, ha⟩ := aliveAt_some halive
    have hsr : r.suspended = false := by
      unfold suspendedAt at hns
      rw [hr] at hns
      exact hns
    obtain ⟨rb, rh, rsus, rss, rg, ral⟩ := r
    simp only at ha hsr
    subst ha
    subst hsr
    have h1 : connSuspend st hid =
        { st with holders := st.holders.set hid ⟨rb, rh, true, rss, rg, true⟩ } := by
      simp [connSuspend, lockHolder_eq_some hr rfl, holderSuspend, hr]
    rw [h1]
    simp [connResume, lockHolder, holderResume, List.getElem?_set_self, List.length_set,
      getq_some_lt hr, List.set_set, set_self_of_getq hr]

-- ### Emission with a throwing subscriber

lemma emitSteps_append (emitF : State α → α → State α × Option Nat) (st : State α)
    (args : α) (ms1 ms2 : List (Nat × Mode)) :
    emitSteps emitF st args (ms1 ++ ms2) =
      match emitSteps emitF st args ms1 with
      | (s, some e) => (s, some e)
      | (s, none) => emitSteps emitF s args ms2 := by
  induction ms1 generalizing st with
  | nil => rfl
  | cons p rest ih =>
    rw [List.cons_append, emitSteps, emitSteps]
    cases invokeHolder emitF st p.1 args p.2 with
    | mk s exc =>
      cases exc with
      | none => exact ih s
      | some e => rfl

lemma invokeHolder_thrower (emitF : State α → α → State α × Option Nat) (st : State α)
    (hid : Nat) (args : α) (m : Mode) (r : HolderRec α) (e : Nat)
    (hr : st.holders[hid]? = some r) (hbody : r.body = [Act.fail e])
    (hsus : r.suspended = false) (hss : r.singleShot = false) :
    invokeHolder emitF st hid args m =
      (if r.handlers.isEmpty then
        ({ st with trace := st.trace ++ [Event.invoke hid args m] }, some e)
       else
        ({ st with trace := (st.trace ++ [Event.invoke hid args m]) ++
            r.handlers.map (fun k => Event.handled hid k e) }, none)) := by
  unfold invokeHolder
  rw [hr]
  dsimp only
  rw [hsus, if_neg (by simp), hss, if_neg (by simp)]
  unfold invokeBody
  rw [hr]
  dsimp only
  rw [hbody]
  rw [show runBody emitF { st with trace := st.trace ++ [Event.invoke hid args m] }
      [Act.fail e] = ({ st with trace := st.trace ++ [Event.invoke hid args m] }, some e)
    from rfl]

/-- C3: A synchronous slot that throws, with plain live subscribers
`pre` before it and `post` after it in the snapshot: if the throwing
subscription has no exception handler, the exception propagates to the
`emit` caller (`some e`) and none of the `post` subscribers is invoked in
this `emit` call; if it has at least one handler, every registered
handler is invoked (once each, in registration order) with the same
captured exception, the exception is swallowed, `emit` returns normally
(`none`) and emission continues through the remaining subscribers. -/
theorem c3_exception_fanout (st : State α) (args : α) (f : Nat)
    (pre post : List Nat) (t e : Nat) (r : HolderRec α)
    (hsnap : st.published = pre ++ t :: post)
    (hr : st.holders[t]? = some r) (hbody : r.body = [Act.fail e])
    (hsus : r.suspended = false) (hss : r.singleShot = false)
    (hpre : ∀ p ∈ pre, plainAt st p = true ∧ suspendedAt st p = false)
    (hpost : ∀ p ∈ post, plainAt st p = true ∧ suspendedAt st p = false) :
    emitWith (f + 1) st args =
      (if r.handlers.isEmpty then
        ({ st with trace := (st.trace ++ pre.map (fun p => Event.invoke p args Mode.byRef)) ++
            [Event.invoke t args (if post.isEmpty then Mode.forwarded else Mode.byRef)] },
         some e)
       else
        ({ st with trace := (((st.trace ++
            pre.map (fun p => Event.invoke p args Mode.byRef)) ++
            [Event.invoke t args (if post.isEmpty then Mode.forwarded else Mode.byRef)]) ++
            r.handlers.map (fun k => Event.handled t k e)) ++
            emitCallsSpec post args },
         none)) := by
  rw [emitWith]
  rw [if_neg (by simp [hsnap])]
  have hms : snapModes st.published =
      (pre.map (fun x => (x, Mode.byRef))) ++
        ((t, if post.isEmpty then Mode.forwarded else Mode.byRef) :: snapModes post) := by
    rw [hsnap, snapModes_append pre (t :: post) (by simp), snapModes_cons]
  rw [hms]
  rw [emitSteps_append]
  have hpre2 : ∀ p ∈ pre.map (fun x => (x, Mode.byRef)),
      plainAt st p.1 = true ∧ suspendedAt st p.1 = false := by
    intro p hp
    obtain ⟨x, hx, rfl⟩ := List.mem_map.mp hp
    exact hpre x hx
  rw [emitSteps_plain_live _ st args _ hpre2]
  dsimp only
  set st1 : State α := { st with trace := st.trace ++
    ((pre.map (fun x => (x, Mode.byRef))).map (fun p => Event.invoke p.1 args p.2)) } with hst1
  rw [emitSteps]
  have hmap : (pre.map (fun x => (x, Mode.byRef))).map (fun p => Event.invoke p.1 args p.2) =
      pre.map (fun p => Event.invoke p args Mode.byRef) := by
    rw [List.map_map]
    rfl
  rw [invokeHolder_thrower _ st1 t args _ r e hr hbody hsus hss]
  cases hh : r.handlers.isEmpty with
  | true =>
    simp only [hh]
    rw [if_pos trivial, if_pos trivial]
    dsimp only
    rw [hmap]
  | false =>
    simp only [hh]
    rw [if_neg (show ¬(false = true) from by decide),
      if_neg (show ¬(false = true) from by decide)]
    dsimp only
    refine Eq.trans (emitSteps_plain_live (fun s a => emitWith f s a) _ args (snapModes post)
      (fun p hp => hpost p.1 (mem_snapModes_fst hp))) ?_
    simp only [hst1]
    simp [hmap, snapModes_map_eq_spec, List.append_assoc]

-- ### Pipeline adapters (map / filter) on heterogeneous argument lists

lemma partialCallList_of_le {β : Type} {k : Nat} {args : List β} (h : args.length ≤ k) :
    partialCallList k args = args := by
  rw [partialCallList]
  simp [h]

lemma take_append_left {β : Type} :
    ∀ (l1 l2 : List β) (k : Nat), k ≤ l1.length → (l1 ++ l2).take k = l1.take k := by
  intro l1
  induction l1 with
  | nil =>
    intro l2 k hk
    simp at hk
    simp [hk]
  | cons a t ih =>
    intro l2 k hk
    cases k with
    | zero => rfl
    | succ k2 =>
      simp only [List.cons_append, List.take_succ_cons]
      rw [ih l2 k2 (by simpa using hk)]

/-- Fact: `partial_call` passes a left-aligned prefix: dropping trailing
arguments one at a time until the callable's arity is reached is the same
as taking the first `k` arguments. -/
lemma partialCallList_eq_take {β : Type} (k : Nat) (args : List β) (h : k ≤ args.length) :
    partialCallList k args = args.take k := by
  induction args using List.reverseRecOn with
  | nil =>
    simp at h
    simp [h, partialCallList_of_le]
  | append_singleton l a ih =>
    rw [partialCallList]
    by_cases hk : (l ++ [a]).length ≤ k
    · rw [if_pos hk]
      have : k = (l ++ [a]).length := Nat.le_antisymm h hk
      rw [this, List.take_length]
    · rw [if_neg hk]
      simp only [List.length_append, List.length_cons, List.length_nil] at hk
      have hk2 : k ≤ l.length := by omega
      rw [List.dropLast_concat, ih hk2, take_append_left l [a] k hk2]

/-- C8: For distinct, in-range indices, a subscriber connected through
`map<indexes...>` is called exactly once per emission, with exactly the
selected argument subsequence in the given index order (the result does
not depend on the modelling default `d`, showing every position is a
genuine in-range selection); in particular emitting `(5, "x")` through
`map<1,0>` into a subscriber expecting `(string, int)` yields exactly one
call with `("x", 5)`. -/
theorem c8_map_projection (idxs : List Nat) (args : List Val) (d : Val)
    (hnodup : idxs.Nodup) (hrange : ∀ i ∈ idxs, i < args.length) :
    mappedLambda idxs idxs.length args = [idxs.map (fun i => args.getD i d)] ∧
    mappedLambda [1, 0] 2 [Val.int 5, Val.str "x"] = [[Val.str "x", Val.int 5]] := by
  constructor
  · unfold mappedLambda
    rw [partialCallList_of_le (by simp)]
    have hsel : idxs.map (fun i => args.getD i (Val.int 0)) =
        idxs.map (fun i => args.getD i d) := by
      apply List.map_congr_left
      intro i hi
      have hlt := hrange i hi
      rw [List.getD_eq_getElem?_getD, List.getD_eq_getElem?_getD,
        List.getElem?_eq_getElem hlt]
      rfl
    rw [hsel]
  · unfold mappedLambda
    rw [partialCallList_of_le (by simp)]
    rfl

/-- C9: `filter(predicate)` evaluates the predicate over a
left-aligned prefix of the emitted arguments: when it yields false, the
event is dropped (no downstream call at all on this path); when it yields
true, the arguments flow through unchanged.  In particular `filter(is_even)`
on an int signal emitting `5` and then `6` produces exactly one downstream
call, with value `6`. -/
theorem c9_filter_drop_or_pass (pred : List Val → Bool) (pk : Nat) (args : List Val)
    (hpk : pk ≤ args.length) :
    (pred (args.take pk) = false → filteredLambda pred pk args.length args = []) ∧
    (pred (args.take pk) = true → filteredLambda pred pk args.length args = [args]) ∧
    (filteredLambda isEvenVal 1 1 [Val.int 5] ++ filteredLambda isEvenVal 1 1 [Val.int 6]
      = [[Val.int 6]]) := by
  have hpred := partialCallList_eq_take pk args hpk
  refine ⟨?_, ?_, ?_⟩
  · intro hfalse
    unfold filteredLambda
    rw [hpred, hfalse]
    rfl
  · intro htrue
    unfold filteredLambda
    rw [hpred, htrue, partialCallList_of_le (Nat.le_refl _)]
    rfl
  · unfold filteredLambda
    rw [partialCallList_of_le (by simp), partialCallList_of_le (by simp)]
    rfl

-- ### Single-shot accounting (C2)

lemma countInvokes_append (t1 t2 : List (Event α)) (h : Nat) :
    countInvokes (t1 ++ t2) h = countInvokes t1 h + countInvokes t2 h := by
  unfold countInvokes
  rw [List.countP_append]

lemma countInvokes_handled (hs : List Nat) (a e y : Nat) :
    countInvokes (hs.map (fun k => Event.handled a k e) : List (Event α)) y = 0 := by
  unfold countInvokes
  rw [List.countP_eq_zero]
  intro ev hev
  obtain ⟨k, _, rfl⟩ := List.mem_map.mp hev
  simp

lemma all_set_congr {β : Type} {p : β → Bool} :
    ∀ (l : List β) (i : Nat) (a b : β), l[i]? = some a → p b = p a →
      (l.set i b).all p = l.all p := by
  intro l
  induction l with
  | nil =>
    intro i a b h hp
    simp at h
  | cons x t ih =>
    intro i a b h hp
    cases i with
    | zero =>
      simp at h
      subst h
      simp [List.all_cons, hp]
    | succ j =>
      simp at h
      simp only [List.set_cons_succ, List.all_cons]
      rw [ih j a b h hp]

lemma statePure_getq {st : State α} {x : Nat} {r : HolderRec α}
    (hpure : statePure st = true) (hr : st.holders[x]? = some r) :
    noReemitB r.body = true := by
  unfold statePure at hpure
  rw [List.all_eq_true] at hpure
  exact hpure r (List.getElem?_mem hr)

lemma singleShotAt_holderDisconnect (st : State α) (x y : Nat) :
    singleShotAt (holderDisconnect st x) y = singleShotAt st y := by
  unfold singleShotAt
  rw [holderDisconnect_holders_getq]
  by_cases hy : y = x
  · subst hy
    rw [if_pos rfl]
    cases st.holders[y]? <;> rfl
  · rw [if_neg hy]

lemma statePure_holderDisconnect (st : State α) (x : Nat) :
    statePure (holderDisconnect st x) = statePure st := by
  unfold holderDisconnect
  dsimp only
  have hsd : (signalDisconnect st x).holders = st.holders := by
    simp [signalDisconnect, publish]
  rw [hsd]
  cases hr : st.holders[x]? with
  | none => simp [statePure, signalDisconnect, publish]
  | some r =>
    dsimp only
    cases r.guard with
    | none => simp [statePure, signalDisconnect, publish]
    | some g =>
      unfold statePure
      simp only [guardClean, hsd, signalDisconnect, publish]
      exact all_set_congr st.holders x r { r with guard := none } hr rfl

lemma holderDisconnect_sub (st : State α) (x : Nat) :
    List.Sublist (holderDisconnect st x).published st.published := by
  rw [holderDisconnect_published]
  exact List.filter_sublist _

lemma runBody_noReemit (emitF : State α → α → State α × Option Nat) (st : State α)
    (body : List (Act α)) (h : noReemitB body = true) :
    ∃ o, runBody emitF st body = (st, o) := by
  cases body with
  | nil => exact ⟨none, rfl⟩
  | cons a rest =>
    cases a with
    | reemit x =>
      unfold noReemitB at h
      simp at h
    | fail e => exact ⟨some e, rfl⟩

lemma invokeHolder_shape (emitF : State α → α → State α × Option Nat) (st : State α)
    (x : Nat) (args : α) (m : Mode) (hpure : statePure st = true) :
    ∃ (st0 : State α) (tr : List (Event α)),
      (st0 = st ∨ st0 = holderDisconnect st x) ∧
      (invokeHolder emitF st x args m).1 = { st0 with trace := st0.trace ++ tr } ∧
      countInvokes tr x ≤ 1 ∧
      (∀ y, y ≠ x → countInvokes tr y = 0) ∧
      (singleShotAt st x = true → countInvokes tr x = 1 → st0 = holderDisconnect st x) ∧
      (countInvokes tr x = 0 → st0 = st) := by
  have hssx : singleShotAt st x = (match st.holders[x]? with
      | some r => r.singleShot
      | none => false) := rfl
  unfold invokeHolder
  cases hr : st.holders[x]? with
  | none =>
    refine ⟨st, [], Or.inl rfl, by simp, by simp [countInvokes], ?_, ?_, fun _ => rfl⟩
    · intro y _
      simp [countInvokes]
    · intro _ hc
      exact absurd hc.symm (by simp [countInvokes])
  | some r =>
    dsimp only
    cases hsus : r.suspended with
    | true =>
      rw [if_pos rfl]
      refine ⟨st, [], Or.inl rfl, by simp, by simp [countInvokes], ?_, ?_, fun _ => rfl⟩
      · intro y _
        simp [countInvokes]
      · intro _ hc
        exact absurd hc.symm (by simp [countInvokes])
    | false =>
      rw [if_neg (by decide)]
      have hsseq : singleShotAt st x = r.singleShot := by rw [hssx, hr]
      have hlook : ∃ r0 : HolderRec α,
          (if r.singleShot = true then holderDisconnect st x else st).holders[x]? = some r0 ∧
          r0.body = r.body ∧ r0.handlers = r.handlers := by
        cases hss : r.singleShot with
        | false => exact ⟨r, by rw [if_neg (by decide)]; exact hr, rfl, rfl⟩
        | true =>
          refine ⟨{ r with guard := none }, ?_, rfl, rfl⟩
          rw [if_pos rfl, holderDisconnect_holders_getq, if_pos rfl, hr]
          rfl
      obtain ⟨r0, hr0, hb0, hh0⟩ := hlook
      set st0 := if r.singleShot = true then holderDisconnect st x else st with hst0
      have hd0 : st0 = st ∨ st0 = holderDisconnect st x := by
        rw [hst0]
        cases r.singleShot
        · exact Or.inl (by rw [if_neg (by decide)])
        · exact Or.inr (by rw [if_pos rfl])
      have hss_link : singleShotAt st x = true → st0 = holderDisconnect st x := by
        intro hs
        rw [hst0, hsseq.symm.trans hs]
        rw [if_pos rfl]
      have hss_id : singleShotAt st x = false → st0 = st := by
        intro hs
        rw [hst0, hsseq.symm.trans hs]
        rw [if_neg (by decide)]
      unfold invokeBody
      rw [hr0]
      dsimp only
      have hno : noReemitB r0.body = true := by
        rw [hb0]
        exact statePure_getq hpure hr
      obtain ⟨o, ho⟩ :=
        runBody_noReemit emitF { st0 with trace := st0.trace ++ [Event.invoke x args m] }
          r0.body hno
      rw [ho]
      cases o with
      | none =>
        refine ⟨st0, [Event.invoke x args m], hd0, rfl, by simp [countInvokes], ?_, ?_, ?_⟩
        · intro y hy
          simp [countInvokes, Ne.symm hy]
        · intro hs _
          exact hss_link hs
        · intro hc
          simp [countInvokes] at hc
      | some e =>
        cases hhe : r0.handlers.isEmpty with
        | true =>
          dsimp only
          rw [if_pos rfl]
          refine ⟨st0, [Event.invoke x args m], hd0, rfl, by simp [countInvokes], ?_, ?_, ?_⟩
          · intro y hy
            simp [countInvokes, Ne.symm hy]
          · intro hs _
            exact hss_link hs
          · intro hc
            simp [countInvokes] at hc
        | false =>
          dsimp only
          rw [if_neg (show ¬(false = true) from by decide)]
          refine ⟨st0, [Event.invoke x args m] ++
            r0.handlers.map (fun k => Event.handled x k e), hd0, ?_, ?_, ?_, ?_, ?_⟩
          · simp [List.append_assoc]
          · rw [countInvokes_append, countInvokes_handled]
            simp [countInvokes]
          · intro y hy
            rw [countInvokes_append, countInvokes_handled]
            simp [countInvokes, Ne.symm hy]
          · intro hs _
            exact hss_link hs
          · intro hc
            rw [countInvokes_append, countInvokes_handled] at hc
            simp [countInvokes] at hc

lemma emitSteps_once_bound (emitF : State α → α → State α × Option Nat) (st : State α)
    (args : α) (ms : List (Nat × Mode)) (h : Nat)
    (hpure : statePure st = true) (hss : singleShotAt st h = true)
    (hnd : (ms.map Prod.fst).Nodup)
    (hmem : h ∈ ms.map Prod.fst → h ∈ st.published) :
    statePure (emitSteps emitF st args ms).1 = true ∧
    singleShotAt (emitSteps emitF st args ms).1 h = true ∧
    List.Sublist (emitSteps emitF st args ms).1.published st.published ∧
    countInvokes (emitSteps emitF st args ms).1.trace h +
        (if h ∈ (emitSteps emitF st args ms).1.published then 1 else 0) ≤
      countInvokes st.trace h + (if h ∈ st.published then 1 else 0) := by
  induction ms generalizing st with
  | nil => exact ⟨hpure, hss, List.Sublist.refl _, Nat.le_refl _⟩
  | cons p rest ih =>
    obtain ⟨st0, tr, hd0, heq, hcx, hcy, hlink, hzero⟩ :=
      invokeHolder_shape emitF st p.1 args p.2 hpure
    rw [emitSteps]
    cases hinv : invokeHolder emitF st p.1 args p.2 with
    | mk st1 exc =>
      rw [hinv] at heq
      simp only at heq
      have htr0 : st0.trace = st.trace := by
        rcases hd0 with h0 | h0
        · rw [h0]
        · rw [h0, holderDisconnect_trace]
      have hpure1 : statePure st1 = true := by
        rw [heq]
        show statePure st0 = true
        rcases hd0 with h0 | h0
        · rw [h0]; exact hpure
        · rw [h0, statePure_holderDisconnect]; exact hpure
      have hss1 : singleShotAt st1 h = true := by
        rw [heq]
        show singleShotAt st0 h = true
        rcases hd0 with h0 | h0
        · rw [h0]; exact hss
        · rw [h0, singleShotAt_holderDisconnect]; exact hss
      have hsub1 : List.Sublist st1.published st.published := by
        rw [heq]
        show List.Sublist st0.published st.published
        rcases hd0 with h0 | h0
        · rw [h0]
        · rw [h0]; exact holderDisconnect_sub st p.1
      have hphi : countInvokes st1.trace h + (if h ∈ st1.published then 1 else 0) ≤
          countInvokes st.trace h + (if h ∈ st.published then 1 else 0) := by
        rw [heq]
        show countInvokes (st0.trace ++ tr) h + (if h ∈ st0.published then 1 else 0) ≤ _
        rw [countInvokes_append, htr0]
        by_cases hph : p.1 = h
        · subst hph
          by_cases hc0 : countInvokes tr p.1 = 0
          · rw [hzero hc0, hc0, Nat.add_zero]
          · have hc1 : countInvokes tr p.1 = 1 :=
              Nat.le_antisymm hcx (Nat.one_le_iff_ne_zero.mpr hc0)
            have hd : st0 = holderDisconnect st p.1 := hlink hss hc1
            rw [hd, hc1, holderDisconnect_published]
            have hmem0 : p.1 ∈ st.published := hmem (by simp)
            have hninp : p.1 ∉ st.published.filter (fun s => s ≠ p.1) := by
              simp [List.mem_filter]
            rw [if_neg hninp, if_pos hmem0]
        · rw [hcy h (fun hhc => hph hhc.symm), Nat.add_zero]
          rcases hd0 with h0 | h0
          · rw [h0]
          · rw [h0, holderDisconnect_published]
            have hiff : h ∈ st.published.filter (fun s => s ≠ p.1) ↔ h ∈ st.published := by
              simp [List.mem_filter]
              intro _
              exact fun hhc => hph hhc.symm
            by_cases hmq : h ∈ st.published
            · rw [if_pos (hiff.mpr hmq), if_pos hmq]
            · rw [if_neg (fun hc => hmq (hiff.mp hc)), if_neg hmq]
      have hndrest : (rest.map Prod.fst).Nodup := by
        rw [List.map_cons] at hnd
        exact (List.nodup_cons.mp hnd).2
      have hnothead : p.1 ∉ rest.map Prod.fst := by
        rw [List.map_cons] at hnd
        exact (List.nodup_cons.mp hnd).1
      cases exc with
      | some e =>
        exact ⟨hpure1, hss1, hsub1, hphi⟩
      | none =>
        have hmem1 : h ∈ rest.map Prod.fst → h ∈ st1.published := by
          intro hin
          have hne : p.1 ≠ h := by
            intro hc
            rw [hc] at hnothead
            exact hnothead hin
          have hmem0 : h ∈ st.published := hmem (by simp [hin])
          rw [heq]
          show h ∈ st0.published
          rcases hd0 with h0 | h0
          · rw [h0]; exact hmem0
          · rw [h0, holderDisconnect_published]
            simp only [List.mem_filter, decide_eq_true_eq]
            exact ⟨hmem0, fun hc => hne hc.symm⟩
        obtain ⟨A, B, C, D⟩ := ih st1 hpure1 hss1 hndrest hmem1
        exact ⟨A, B, C.trans hsub1, D.trans hphi⟩

lemma emitWith_once_bound (fuel : Nat) (st : State α) (a : α) (h : Nat)
    (hpure : statePure st = true) (hnd : st.published.Nodup)
    (hss : singleShotAt st h = true) :
    statePure (emitWith fuel st a).1 = true ∧
    (emitWith fuel st a).1.published.Nodup ∧
    singleShotAt (emitWith fuel st a).1 h = true ∧
    countInvokes (emitWith fuel st a).1.trace h +
        (if h ∈ (emitWith fuel st a).1.published then 1 else 0) ≤
      countInvokes st.trace h + (if h ∈ st.published then 1 else 0) := by
  cases fuel with
  | zero => exact ⟨hpure, hnd, hss, Nat.le_refl _⟩
  | succ f =>
    rw [emitWith]
    cases hp : st.published.isEmpty with
    | true =>
      rw [if_pos rfl]
      exact ⟨hpure, hnd, hss, Nat.le_refl _⟩
    | false =>
      rw [if_neg (by simp)]
      have hnd2 : ((snapModes st.published).map Prod.fst).Nodup := by
        rw [snapModes_fst]
        exact hnd
      have hmem2 : h ∈ (snapModes st.published).map Prod.fst → h ∈ st.published := by
        rw [snapModes_fst]
        exact id
      obtain ⟨A, B, C, D⟩ := emitSteps_once_bound (fun s a2 => emitWith f s a2) st a
        (snapModes st.published) h hpure hss hnd2 hmem2
      exact ⟨A, List.Nodup.sublist C hnd, B, D⟩

/-- C2 counterexample: The claim "for every subscription created
with `connect_once`, across any number of `emit` calls (including
re-entrant emission from inside a slot) the slot runs at most once" is
false on the code: in `c2Scenario`, subscriber `1` is a `connect_once`
subscription, yet a single `emit` call invokes its slot twice.
Subscriber `0` (earlier in the same snapshot) re-enters `emit`; the
re-entrant emission fires and disconnects subscriber `1`, but the outer
emission still holds its own snapshot containing `1` and
`operator()` has no already-fired check — it disconnects again (a no-op)
and runs the slot a second time. -/
theorem c2_counterexample :
    singleShotAt c2Scenario 1 = true ∧
    countInvokes (emitWith 3 c2Scenario 0).1.trace 1 = 2 := by
  decide

/-- C2 amended: For every subscription created with `connect_once`:
(1) across any number of sequential `emit` calls, provided no slot body
re-enters `emit`, the slot runs at most once in total (the disconnection
performed before its invocation removes it from every later snapshot);
(2) the disconnection happens before the single invocation executes:
`operator()` on a non-suspended single-shot holder first disconnects and
only then runs the slot, at which point the holder is no longer in the
published subscriber list.  (Under re-entrant emission from a slot that
precedes it in an in-flight snapshot, the slot can instead run once per
snapshot that contains it — see the counterexample.) -/
theorem c2_once_amended (st : State α) (hid : Nat) (argsL : List α) (fuel : Nat)
    (hpure : statePure st = true) (hnd : st.published.Nodup)
    (hss : singleShotAt st hid = true) :
    countInvokes (emitSeq fuel st argsL).trace hid ≤ countInvokes st.trace hid + 1 ∧
    (∀ (emitF : State α → α → State α × Option Nat) (args : α) (m : Mode) (r : HolderRec α),
      st.holders[hid]? = some r → r.suspended = false →
      invokeHolder emitF st hid args m =
        invokeBody emitF (holderDisconnect st hid) hid args m ∧
      hid ∉ (holderDisconnect st hid).published) := by
  constructor
  · have haux : ∀ (l : List α) (s : State α), statePure s = true → s.published.Nodup →
        singleShotAt s hid = true →
        countInvokes (emitSeq fuel s l).trace hid +
            (if hid ∈ (emitSeq fuel s l).published then 1 else 0) ≤
          countInvokes s.trace hid + (if hid ∈ s.published then 1 else 0) := by
      intro l
      induction l with
      | nil =>
        intro s _ _ _
        exact Nat.le_refl _
      | cons a t ih =>
        intro s hp hn hs
        obtain ⟨A, B, C, D⟩ := emitWith_once_bound fuel s a hid hp hn hs
        have hstep : emitSeq fuel s (a :: t) = emitSeq fuel (emitWith fuel s a).1 t := rfl
        rw [hstep]
        exact (ih (emitWith fuel s a).1 A B C).trans D
    have hphi := haux argsL st hpure hnd hss
    have h2 : countInvokes (emitSeq fuel st argsL).trace hid ≤
        countInvokes (emitSeq fuel st argsL).trace hid +
          (if hid ∈ (emitSeq fuel st argsL).published then 1 else 0) :=
      Nat.le_add_right _ _
    refine (h2.trans hphi).trans ?_
    by_cases hm : hid ∈ st.published
    · rw [if_pos hm]
    · rw [if_neg hm]
      omega
  · intro emitF args m r hr hsus
    have hssr : r.singleShot = true := by
      unfold singleShotAt at hss
      rw [hr] at hss
      exact hss
    constructor
    · unfold invokeHolder
      rw [hr]
      dsimp only
      rw [hsus, if_neg (by decide), hssr, if_pos rfl]
    · rw [holderDisconnect_published]
      simp [List.mem_filter]

-- ### Guard destruction (C5)

lemma aliveAt_connDisconnect (st : State α) (c x : Nat) :
    aliveAt (connDisconnect st c) x = aliveAt st x := by
  unfold connDisconnect
  cases lockHolder st c with
  | none => rfl
  | some r => exact holderDisconnect_alive st c x

lemma connDisconnect_not_mem_self (st : State α) (hid : Nat)
    (halive : aliveAt st hid = true) : hid ∉ (connDisconnect st hid).published := by
  obtain ⟨r, hr, ha⟩ := aliveAt_some halive
  rw [connDisconnect, lockHolder_eq_some hr ha]
  rw [holderDisconnect_published]
  simp [List.mem_filter]

lemma connDisconnect_mem_other (st : State α) (c h : Nat) (hne : h ≠ c) :
    h ∈ (connDisconnect st c).published ↔ h ∈ st.published := by
  unfold connDisconnect
  cases lockHolder st c with
  | none => exact Iff.rfl
  | some r =>
    rw [holderDisconnect_published]
    simp only [List.mem_filter, decide_eq_true_eq]
    exact ⟨fun hx => hx.1, fun hx => ⟨hx, hne⟩⟩

lemma connDisconnect_mem_sub (st : State α) (c h : Nat)
    (hx : h ∈ (connDisconnect st c).published) : h ∈ st.published := by
  revert hx
  unfold connDisconnect
  cases lockHolder st c with
  | none => exact id
  | some r =>
    rw [holderDisconnect_published]
    intro hx
    exact (List.mem_filter.mp hx).1

lemma foldl_connDisconnect_facts (cs : List Nat) (st : State α) (h : Nat) :
    (∀ x, aliveAt (cs.foldl (fun s c => connDisconnect s c) st) x = aliveAt st x) ∧
    (h ∉ st.published → h ∉ (cs.foldl (fun s c => connDisconnect s c) st).published) ∧
    (h ∈ cs → aliveAt st h = true →
      h ∉ (cs.foldl (fun s c => connDisconnect s c) st).published) ∧
    (h ∉ cs →
      (h ∈ (cs.foldl (fun s c => connDisconnect s c) st).published ↔ h ∈ st.published)) := by
  induction cs generalizing st with
  | nil => exact ⟨fun _ => rfl, id, fun hc => absurd hc (List.not_mem_nil h), fun _ => Iff.rfl⟩
  | cons c rest ih =>
    obtain ⟨ihA, ihB, ihC, ihD⟩ := ih (connDisconnect st c)
    have hstep : (c :: rest).foldl (fun s c => connDisconnect s c) st =
        rest.foldl (fun s c => connDisconnect s c) (connDisconnect st c) := rfl
    rw [hstep]
    refine ⟨?_, ?_, ?_, ?_⟩
    · intro x
      rw [ihA x, aliveAt_connDisconnect]
    · intro hout
      apply ihB
      intro hc
      exact hout (connDisconnect_mem_sub st c h hc)
    · intro hin halive
      rcases List.mem_cons.mp hin with hhc | hhr
      · subst hhc
        apply ihB
        exact connDisconnect_not_mem_self st h halive
      · exact ihC hhr (by rw [aliveAt_connDisconnect]; exact halive)
    · intro hout
      have hne : h ≠ c := fun hc => hout (hc ▸ List.mem_cons_self c rest)
      have hnr : h ∉ rest := fun hc => hout (List.mem_cons_of_mem c hc)
      exact (ihD hnr).trans (connDisconnect_mem_other st c h hne)

lemma getD_set_self {β : Type} (l : List β) (g : Nat) (b d : β) :
    (l.set g b).getD g d = if g < l.length then b else d := by
  by_cases hg : g < l.length
  · rw [if_pos hg]
    rw [List.getD_eq_getElem?_getD, List.getElem?_set_self (by simpa using hg)]
    rfl
  · rw [if_neg hg]
    rw [List.set_eq_of_length_le (Nat.le_of_not_lt hg)]
    rw [List.getD_eq_getElem?_getD, List.getElem?_eq_none (Nat.le_of_not_lt hg)]
    rfl

/-- C5: Destroying a guard disconnects exactly the connections
registered through it: every live holder in the guard's
`m_emitting_sources` list is removed from the signal's published
subscriber list, the membership of every other holder is unchanged, and
the guard's own list is emptied.  The statement quantifies over arbitrary
states, including those in which the signal has already been destroyed
(all its holders dead): there each disconnect degrades to the silent
weak-pointer no-op, and nothing else is touched. -/
theorem c5_guard_destroys_exactly (st : State α) (g : Nat) :
    (∀ h ∈ st.guards.getD g [], aliveAt st h = true →
      h ∉ (destroyGuard st g).published) ∧
    (∀ h, h ∉ st.guards.getD g [] →
      (h ∈ (destroyGuard st g).published ↔ h ∈ st.published)) ∧
    (destroyGuard st g).guards.getD g [] = [] := by
  have hpub : (destroyGuard st g).published =
      ((st.guards.getD g []).foldl (fun s c => connDisconnect s c) st).published := rfl
  refine ⟨?_, ?_, ?_⟩
  · intro h hin halive
    rw [hpub]
    exact (foldl_connDisconnect_facts (st.guards.getD g []) st h).2.2.1 hin halive
  · intro h hout
    rw [hpub]
    exact (foldl_connDisconnect_facts (st.guards.getD g []) st h).2.2.2 hout
  · show (((st.guards.getD g []).foldl (fun s c => connDisconnect s c) st).guards.set g
      []).getD g [] = []
    rw [getD_set_self]
    split <;> rfl

-- ### Concrete witnesses

/-- Witness for C1 at a concrete state: two plain live subscribers,
emitting `7`. -/
theorem c1_emit_order_witness :
    (∀ p ∈ twoPlain.published, plainAt twoPlain p = true) ∧
    (∀ p ∈ twoPlain.published, suspendedAt twoPlain p = false) ∧
    emitWith 1 twoPlain 7 =
      ({ twoPlain with trace := twoPlain.trace ++ emitCallsSpec twoPlain.published 7 }, none) :=
  ⟨by decide, by decide, c1_emit_order twoPlain 7 0 (by decide) (by decide)⟩

/-- Witness for the amended C2 at a concrete state: one single-shot plain
subscriber, two sequential emissions; the slot fires at most once, and the
disconnection precedes the single invocation. -/
theorem c2_once_amended_witness :
    countInvokes (emitSeq 1 oneOnce [3, 4]).trace 0 ≤ countInvokes oneOnce.trace 0 + 1 ∧
    (invokeHolder (fun s _ => (s, none)) oneOnce 0 3 Mode.forwarded =
        invokeBody (fun s _ => (s, none)) (holderDisconnect oneOnce 0) 0 3 Mode.forwarded ∧
      0 ∉ (holderDisconnect oneOnce 0).published) :=
  ⟨(c2_once_amended oneOnce 0 [3, 4] 1 (by decide) (by decide) (by decide)).1,
    (c2_once_amended oneOnce 0 [3, 4] 1 (by decide) (by decide) (by decide)).2
      (fun s _ => (s, none)) 3 Mode.forwarded
      ⟨[], [], false, true, none, true⟩ (by decide) rfl⟩

/-- Witness for C3 at a concrete state: one plain subscriber before a
handler-less throwing subscriber; the exception propagates out of the
`emit` call. -/
theorem c3_exception_fanout_witness :
    emitWith 1 plainThenThrower 5 =
      (if (⟨[Act.fail 9], [], false, false, none, true⟩ : HolderRec Nat).handlers.isEmpty then
        ({ plainThenThrower with trace := (plainThenThrower.trace ++
            ([0].map (fun p => Event.invoke p 5 Mode.byRef))) ++
            [Event.invoke 1 5 (if ([] : List Nat).isEmpty then Mode.forwarded else Mode.byRef)] },
         some 9)
       else
        ({ plainThenThrower with trace := (((plainThenThrower.trace ++
            ([0].map (fun p => Event.invoke p 5 Mode.byRef))) ++
            [Event.invoke 1 5 (if ([] : List Nat).isEmpty then Mode.forwarded else Mode.byRef)]) ++
            ((⟨[Act.fail 9], [], false, false, none, true⟩ : HolderRec Nat).handlers.map
              (fun k => Event.handled 1 k 9))) ++
            (emitCallsSpec [] 5) },
         none)) :=
  c3_exception_fanout plainThenThrower 5 0 [0] [] 1 9
    ⟨[Act.fail 9], [], false, false, none, true⟩ (by decide) (by decide) rfl rfl rfl
    (by decide) (by decide)

/-- Witness for C4 at a concrete state: the live branch's conclusions and
the idempotence conclusion instantiated. -/
theorem c4_disconnect_idempotent_cow_witness :
    (0 : Nat) ∉ (connDisconnect twoPlain 0).published ∧
    observable (connDisconnect (connDisconnect twoPlain 0) 0) =
      observable (connDisconnect twoPlain 0) :=
  ⟨((c4_disconnect_idempotent_cow twoPlain 0).1 (by decide)).2.2,
    (c4_disconnect_idempotent_cow twoPlain 0).2.2⟩

/-- Witness for C5 at a concrete state: one guarded subscriber; guard
destruction removes it, leaves unrelated ids untouched, and empties the
guard list. -/
theorem c5_guard_destroys_exactly_witness :
    (0 : Nat) ∉ (destroyGuard oneGuarded 0).published ∧
    ((5 : Nat) ∈ (destroyGuard oneGuarded 0).published ↔ (5 : Nat) ∈ oneGuarded.published) ∧
    (destroyGuard oneGuarded 0).guards.getD 0 [] = [] :=
  ⟨(c5_guard_destroys_exactly oneGuarded 0).1 0 (by decide) (by decide),
    (c5_guard_destroys_exactly oneGuarded 0).2.1 5 (by decide),
    (c5_guard_destroys_exactly oneGuarded 0).2.2⟩

/-- Witness for C6 at a concrete state: suspend subscriber `0`, emit `7`
(its slot does not run), resume restores the original state. -/
theorem c6_suspend_skip_resume_restore_witness :
    (connSuspend twoPlain 0).published = twoPlain.published ∧
    countInvokes (emitWith 1 (connSuspend twoPlain 0) 7).1.trace 0 =
      countInvokes (connSuspend twoPlain 0).trace 0 ∧
    connResume (connSuspend twoPlain 0) 0 = twoPlain :=
  ⟨(c6_suspend_skip_resume_restore twoPlain 0 (by decide)).1,
    (c6_suspend_skip_resume_restore twoPlain 0 (by decide)).2.1 7 0 (by decide),
    (c6_suspend_skip_resume_restore twoPlain 0 (by decide)).2.2 (by decide)⟩

/-- Witness for C7 at a concrete state: subscriber `0` destroyed, all
four handle operations are identities, and a fresh `connect` yields a
live registered handle. -/
theorem c7_dangling_noop_witness :
    connDisconnect (destroyHolder twoPlain 0) 0 = destroyHolder twoPlain 0 ∧
    connSuspend (destroyHolder twoPlain 0) 0 = destroyHolder twoPlain 0 ∧
    connResume (destroyHolder twoPlain 0) 0 = destroyHolder twoPlain 0 ∧
    connAddHandler (destroyHolder twoPlain 0) 0 3 = destroyHolder twoPlain 0 ∧
    aliveAt (connectImpl (destroyHolder twoPlain 0) [] false).1
      (connectImpl (destroyHolder twoPlain 0) [] false).2 = true ∧
    (connectImpl (destroyHolder twoPlain 0) [] false).2 ∈
      (connectImpl (destroyHolder twoPlain 0) [] false).1.published :=
  c7_dangling_noop (destroyHolder twoPlain 0) 0 3 [] false (by decide)

/-- Witness for C8 at the claim's example input. -/
theorem c8_map_projection_witness :
    mappedLambda [1, 0] ([1, 0] : List Nat).length [Val.int 5, Val.str "x"] =
      [[1, 0].map (fun i => [Val.int 5, Val.str "x"].getD i (Val.str "q"))] ∧
    mappedLambda [1, 0] 2 [Val.int 5, Val.str "x"] = [[Val.str "x", Val.int 5]] :=
  c8_map_projection [1, 0] [Val.int 5, Val.str "x"] (Val.str "q") (by decide) (by decide)

/-- Witness for C9 at the claim's example input: `6` is even, so the
event flows through unchanged, and the two-emission example yields one
downstream call. -/
theorem c9_filter_drop_or_pass_witness :
    filteredLambda isEvenVal 1 ([Val.int 6] : List Val).length [Val.int 6] = [[Val.int 6]] ∧
    (filteredLambda isEvenVal 1 1 [Val.int 5] ++ filteredLambda isEvenVal 1 1 [Val.int 6]
      = [[Val.int 6]]) :=
  ⟨(c9_filter_drop_or_pass isEvenVal 1 [Val.int 6] (by decide)).2.1 (by decide),
    (c9_filter_drop_or_pass isEvenVal 1 [Val.int 6] (by decide)).2.2⟩

/-- Witness for C10 at a concrete state. -/
theorem c10_suspend_boolean_witness :
    connSuspend (connSuspend twoPlain 0) 0 = connSuspend twoPlain 0 ∧
    suspendedAt (connResume twoPlain 0) 0 = false ∧
    suspendedAt
      (inhibitorDestroy (inhibitorCreate (inhibitorCreate twoPlain 0) 0) 0) 0 = false :=
  c10_suspend_boolean twoPlain 0 (by decide)

end Stimulus
